import Mathlib

set_option maxRecDepth 4000

/-!
Verification of the SNS relayer service (src/src/index.ts) against its
natural-language specification.

Shallow embedding conventions:
- JavaScript strings are `List Char`; `String.prototype.toLowerCase` is a
  per-character map, `String.prototype.endsWith` is `List.isSuffixOf`, and
  `String.prototype.replace` with a string pattern (which replaces only the
  first occurrence) is `replaceOnce`.
- JavaScript numbers that hold monetary USDC values are modelled as exact
  rationals `ℚ`; `Math.floor` is `Int.floor`; `Math.abs` is `|·|`.
- External deterministic library functions (`getDomainKeySync`,
  `getAssociatedTokenAddress`, `new PublicKey`) are represented symbolically
  by injective constructors of the `PubKey` inductive.
- Network effects (`connection.getAccountInfo`, `fetch`, blockhash fetch)
  are supplied by an explicit environment record `Env`.
- The encryption middleware (`./encryption`, not part of the repository
  sources) is modelled from the spec where needed.
-/

/-! ### Strings and the domain suffix -/

/-- The four characters of the mandatory domain suffix `.sol`. -/
def solSuffix : List Char := ['.', 's', 'o', 'l']

/-- Embedding of `String.prototype.toLowerCase` (per-character lowering). -/
def toLowerList (s : List Char) : List Char := s.map Char.toLower

/-- Embedding of `domainName.endsWith(suffix)`. -/
def listEndsWith (suffix s : List Char) : Bool := suffix.isSuffixOf s

/-- Embedding of JavaScript `s.replace(pat, repl)` for a non-regex pattern:
only the first occurrence of `pat` in `s` is replaced by `repl`. -/
def replaceOnce (pat repl : List Char) : List Char → List Char
  | [] => []
  | c :: rest =>
    if pat.isPrefixOf (c :: rest) then repl ++ (c :: rest).drop pat.length
    else c :: replaceOnce pat repl rest

/-- Embedding of `getDomainPrice` (src/src/index.ts lines 68-75):
`domainName.replace('.sol', '').length` bucketed into the price table. -/
def getDomainPrice (domainName : List Char) : ℚ :=
  let length := (replaceOnce solSuffix [] domainName).length
  if length ≤ 3 then 10
  else if length ≤ 5 then 5
  else if length ≤ 8 then 2
  else 1

theorem replaceOnce_length_of_infix (pat repl : List Char) (hp : pat ≠ []) :
    ∀ s : List Char, pat <:+: s →
      (replaceOnce pat repl s).length + pat.length = s.length + repl.length := by
  intro s
  induction s with
  | nil => intro h; simp at h; exact absurd h hp
  | cons c rest ih =>
    intro h
    by_cases hpre : pat.isPrefixOf (c :: rest) = true
    · have hle : pat.length ≤ (c :: rest).length :=
        (List.isPrefixOf_iff_prefix.mp hpre).length_le
      simp only [replaceOnce, hpre, if_true, List.length_append, List.length_drop]
      omega
    · obtain ⟨l, r, hEq⟩ := h
      cases l with
      | nil =>
        exfalso
        apply hpre
        apply List.isPrefixOf_iff_prefix.mpr
        exact ⟨r, by simpa using hEq⟩
      | cons a l2 =>
        have hrest : pat <:+: rest := by
          refine ⟨l2, r, ?_⟩
          have h2 := hEq
          simp only [List.cons_append] at h2
          exact (List.cons.injEq _ _ _ _ ▸ h2).2
        have hrw : replaceOnce pat repl (c :: rest) = c :: replaceOnce pat repl rest := by
          simp only [replaceOnce]
          rw [if_neg hpre]
        rw [hrw]
        simp only [List.length_cons]
        have := ih hrest
        omega

theorem replaceOnce_length_of_suffix (name : List Char)
    (h : listEndsWith solSuffix name = true) :
    (replaceOnce solSuffix [] name).length = name.length - 4 := by
  have hsuf : solSuffix <:+ name := List.isSuffixOf_iff_suffix.mp h
  obtain ⟨t, ht⟩ := hsuf
  have hinf : solSuffix <:+: name := ⟨t, [], by simpa using ht⟩
  have := replaceOnce_length_of_infix solSuffix [] (by simp [solSuffix]) name hinf
  simp only [show solSuffix.length = 4 from rfl, List.length_nil] at this
  omega

theorem suffix_length_le (name : List Char)
    (h : listEndsWith solSuffix name = true) : 4 ≤ name.length := by
  have hsuf : solSuffix <:+ name := List.isSuffixOf_iff_suffix.mp h
  have := hsuf.length_le
  simpa [solSuffix] using this

/-- C2. For every name ending in `.sol`, `getDomainPrice` is determined solely
by the name length with the 4-character suffix excluded, and the buckets are:
lengths 1-3 give 10.0, lengths 4-5 give 5.0, lengths 6-8 give 2.0, and
lengths 9 and above give 1.0, with thresholds falling exactly as tabled. -/
theorem getDomainPrice_length_buckets (name : List Char)
    (h : listEndsWith solSuffix name = true) :
    (∀ other : List Char, listEndsWith solSuffix other = true →
        other.length = name.length → getDomainPrice other = getDomainPrice name) ∧
    (1 ≤ name.length - 4 → name.length - 4 ≤ 3 → getDomainPrice name = 10) ∧
    (4 ≤ name.length - 4 → name.length - 4 ≤ 5 → getDomainPrice name = 5) ∧
    (6 ≤ name.length - 4 → name.length - 4 ≤ 8 → getDomainPrice name = 2) ∧
    (9 ≤ name.length - 4 → getDomainPrice name = 1) := by
  have hn := replaceOnce_length_of_suffix name h
  refine ⟨?_, ?_, ?_, ?_, ?_⟩
  · intro other ho hlen
    have hm := replaceOnce_length_of_suffix other ho
    simp only [getDomainPrice, hn, hm, hlen]
  · intro h1 h2
    simp only [getDomainPrice, hn]
    rw [if_pos (by omega)]
  · intro h1 h2
    simp only [getDomainPrice, hn]
    rw [if_neg (by omega), if_pos (by omega)]
  · intro h1 h2
    simp only [getDomainPrice, hn]
    rw [if_neg (by omega), if_neg (by omega), if_pos (by omega)]
  · intro h1
    simp only [getDomainPrice, hn]
    rw [if_neg (by omega), if_neg (by omega), if_neg (by omega)]

/-- Sample domain name used to instantiate theorems: the string `abc.sol`. -/
def abcSol : List Char := ['a', 'b', 'c', '.', 's', 'o', 'l']

/-- C2 witness: `abc.sol` ends in `.sol`, its suffix-excluded length 3 lies in
the 1-3 bucket, and the code indeed prices it at 10. -/
theorem getDomainPrice_length_buckets_witness :
    listEndsWith solSuffix abcSol = true ∧ getDomainPrice abcSol = 10 :=
  ⟨by decide,
   (getDomainPrice_length_buckets abcSol (by decide)).2.1 (by decide) (by decide)⟩

/-! ### Data model: keys, instructions, transactions -/

/-- Symbolic representation of Solana public keys.  External deterministic
derivations (`new PublicKey(s)`, `getAssociatedTokenAddress`,
`getDomainKeySync(...).pubkey`) and the configured constants are represented
injectively by constructors. -/
inductive PubKey : Type
  /-- The relayer key `systemWallet.publicKey`. -/
  | systemWallet : PubKey
  /-- The configured `USDC_MINT` address. -/
  | usdcMint : PubKey
  /-- The hard-coded SNS payment account (index.ts line 170). -/
  | snsPayment : PubKey
  /-- `SystemProgram.programId`. -/
  | systemProgram : PubKey
  /-- `NAME_PROGRAM_ID` from the name-service library. -/
  | nameProgram : PubKey
  /-- A key parsed from a base58 string by `new PublicKey(s)`. -/
  | parsed (s : List Char) : PubKey
  /-- An associated token account `getAssociatedTokenAddress(mint, owner)`. -/
  | ata (mint owner : PubKey) : PubKey
  /-- The derived registry address `getDomainKeySync(name).pubkey`. -/
  | domainKey (name : List Char) : PubKey
deriving DecidableEq, Repr

/-- The hashed-name byte sequence `getDomainKeySync(name).hashed`, represented
symbolically by the name it hashes. -/
structure HashedName : Type where
  ofName : List Char
deriving DecidableEq, Repr

/-- Result of `getDomainKeySync(name)`: derived address plus hashed name. -/
structure RegistryKey : Type where
  pubkey : PubKey
  hashed : HashedName
deriving DecidableEq, Repr

/-- Embedding of `getDomainKeySync` (external, deterministic). -/
def getDomainKeySync (name : List Char) : RegistryKey :=
  ⟨PubKey.domainKey name, ⟨name⟩⟩

/-- Embedding of `getAssociatedTokenAddress` (external, deterministic). -/
def getAssociatedTokenAddress (mint owner : PubKey) : PubKey :=
  PubKey.ata mint owner

/-- Instructions the service appends to a transaction. -/
inductive Instruction : Type
  /-- `createTransferInstruction(source, dest, owner, amount)` from spl-token. -/
  | transferTokens (source dest owner : PubKey) (amount : ℤ) : Instruction
  /-- `createInstruction(nameProgram, systemProgram, target, owner, payer,
  hashedName, lamports, space, nameClass, nameParent, nameParentOwner)` from
  the name-service library (the registration instruction). -/
  | createNameRegistry (nameProg payerProgram target owner payer : PubKey)
      (hashedName : HashedName) (lamports : ℤ) (space : ℕ)
      (nameClass nameParent nameParentOwner : Option PubKey) : Instruction
  /-- `transferInstruction(nameProgram, target, newOwner, currentOwner)` from
  the name-service library (the ownership-update instruction). -/
  | transferName (nameProg target newOwner currentOwner : PubKey) : Instruction
deriving DecidableEq, Repr

/-- True exactly on the funds-moving token-transfer instruction. -/
def isTransferIx : Instruction → Bool
  | Instruction.transferTokens .. => true
  | _ => false

/-- True exactly on the name-registration instruction. -/
def isRegisterIx : Instruction → Bool
  | Instruction.createNameRegistry .. => true
  | _ => false

/-- A web3.js `Transaction` as the service uses it: ordered instruction list,
fee payer, recent blockhash, and the signatures applied so far. -/
structure Transaction : Type where
  instructions : List Instruction
  feePayer : Option PubKey
  recentBlockhash : Option (List Char)
  signatures : List PubKey
deriving DecidableEq, Repr

/-- Options passed to `transaction.serialize` in the source. -/
structure SerializeOpts : Type where
  requireAllSignatures : Bool
  verifySignatures : Bool
deriving DecidableEq, Repr

/-- The options both handlers pass: `requireAllSignatures: false,
verifySignatures: false`. -/
def permissiveOpts : SerializeOpts := ⟨false, false⟩

/-- Serialized transaction bytes, represented symbolically as the transaction
plus the options it was serialized under (serialization is external library
code and injective for our purposes). -/
structure SerializedTx : Type where
  tx : Transaction
  opts : SerializeOpts
deriving DecidableEq, Repr

/-- A text encoding of serialized bytes: `bs58.encode(buf)` or
`buf.toString('base64')`. -/
inductive Encoded : Type
  | b58 (bytes : SerializedTx) : Encoded
  | b64 (bytes : SerializedTx) : Encoded
deriving DecidableEq, Repr

/-- True exactly on base-58 encodings. -/
def isB58 : Encoded → Bool
  | Encoded.b58 _ => true
  | Encoded.b64 _ => false

/-! ### Environment: registry RPC, upstream API, key parsing -/

/-- Account contents returned by `connection.getAccountInfo`. -/
structure AccountInfo : Type where
  data : List ℕ
deriving DecidableEq, Repr

/-- Outcome of a `fetch` call: an ok JSON body, a non-ok HTTP status, or a
rejected promise (network failure). -/
inductive FetchOutcome (α : Type) : Type
  | ok (body : α) : FetchOutcome α
  | httpError (status : ℕ) : FetchOutcome α
  | reject : FetchOutcome α

/-- The effectful collaborators of one request: the registry RPC
(`connection.getAccountInfo`, which can reject, yield no account, or yield an
account), the latest blockhash, validity of `new PublicKey(s)` parsing, and
the Bonfida user-domains API used by /sns/lookup. -/
structure Env : Type where
  rpc : PubKey → Except Unit (Option AccountInfo)
  blockhash : List Char
  pubkeyValid : List Char → Bool
  fetchUserDomains : List Char → FetchOutcome (List (List Char))

/-- Embedding of `isDomainAvailable` (index.ts lines 78-87): available iff the
derived account does not exist; any thrown error is caught and reported as
`false` (not available). -/
def isDomainAvailable (env : Env) (domainName : List Char) : Bool :=
  match env.rpc (getDomainKeySync domainName).pubkey with
  | Except.ok account => account.isNone
  | Except.error _ => false

/-! ### Response messages (string constants from the source) -/

def nameRequiredMsg : String := "Domain name is required"
def suffixRequiredMsg : String := "Domain must end with .sol"
def domainAvailableMsg : String := "Domain is available"
def domainTakenMsg : String := "Domain is already taken"
def allFieldsRequiredMsg : String := "All fields are required"
def notAvailableMsg : String := "Domain is not available"
def invalidPriceMsg : String := "Invalid domain price"
def purchaseOkMsg : String := "Transaction created successfully. User must sign and submit."
def internalErrorMsg : String := "Internal server error"
def domainOwnerRequiredMsg : String := "Domain and new owner are required"
def domainNotFoundMsg : String := "Domain not found"
def updateOkMsg : String := "Update transaction created successfully"
def pubkeyRequiredMsg : String := "Public key is required"
def invalidPubkeyMsg : String := "Invalid public key format"
def bonfidaFailedMsg : String := "Failed to fetch domains from Bonfida API"
def bonfidaConnectFailedMsg : String := "Failed to connect to Bonfida API"
def foundDomainsMsg : String := "Found domain(s)"
def noDomainsMsg : String := "No domains found for this public key"

/-! ### GET /sns/check-domain (index.ts lines 90-122) -/

/-- Decrypted response body of a successful check-domain request. -/
structure CheckResponse : Type where
  domain : List Char
  available : Bool
  priceUSDC : ℚ
  message : String
deriving DecidableEq, Repr

/-- Outcome of the check-domain handler body. -/
inductive CheckResult : Type
  | badRequest (error : String) : CheckResult
  | internalError : CheckResult
  | ok (resp : CheckResponse) : CheckResult
deriving DecidableEq, Repr

/-- Embedding of the check-domain handler body after decryption: validate the
`name` field and the `.sol` suffix, then report availability and price. -/
def checkDomain (env : Env) (name : List Char) : CheckResult :=
  if name = [] then CheckResult.badRequest nameRequiredMsg
  else
    let domainName := toLowerList name
    if listEndsWith solSuffix domainName = false then
      CheckResult.badRequest suffixRequiredMsg
    else
      let isAvailable := isDomainAvailable env domainName
      CheckResult.ok
        { domain := domainName
        , available := isAvailable
        , priceUSDC := getDomainPrice domainName
        , message := if isAvailable then domainAvailableMsg else domainTakenMsg }

/-- HTTP status of a check-domain outcome. -/
def statusOfCheck : CheckResult → ℕ
  | CheckResult.badRequest _ => 400
  | CheckResult.internalError => 500
  | CheckResult.ok _ => 200

/-! ### POST /sns/purchase-domain (index.ts lines 125-242) -/

/-- Decrypted request body of purchase-domain. -/
structure PurchaseRequest : Type where
  name : List Char
  buyerPubkey : List Char
  domainPriceUSDC : ℚ
  serviceFeeUSDC : ℚ
  serviceFeeAddress : List Char
deriving DecidableEq, Repr

/-- Decrypted response body of a successful purchase-domain request. -/
structure PurchaseResponse : Type where
  success : Bool
  transaction : Encoded
  transactionBase64 : Encoded
  message : String
deriving DecidableEq, Repr

/-- Outcome of the purchase-domain handler body.  `ok` carries the assembled
transaction alongside the response built from it, mirroring the source locals
`transaction` and `response`. -/
inductive PurchaseResult : Type
  | badRequest (error : String) : PurchaseResult
  | internalError : PurchaseResult
  | ok (tx : Transaction) (resp : PurchaseResponse) : PurchaseResult
deriving DecidableEq, Repr

/-- Embedding of the purchase-domain handler body after decryption.  The JS
truthiness test `!field` on the five request fields is the emptiness/zero
test; `new PublicKey` on an invalid string throws and is caught by the
handler's catch-all, giving `internalError`.  The source also derives
`systemUsdcAccount`, which is never used and is therefore not modelled. -/
def purchaseDomain (env : Env) (req : PurchaseRequest) : PurchaseResult :=
  if req.name = [] ∨ req.buyerPubkey = [] ∨ req.domainPriceUSDC = 0 ∨
      req.serviceFeeUSDC = 0 ∨ req.serviceFeeAddress = [] then
    PurchaseResult.badRequest allFieldsRequiredMsg
  else
    let domainName := toLowerList req.name
    if listEndsWith solSuffix domainName = false then
      PurchaseResult.badRequest suffixRequiredMsg
    else if isDomainAvailable env domainName = false then
      PurchaseResult.badRequest notAvailableMsg
    else if 1 / 100 < |req.domainPriceUSDC - getDomainPrice domainName| then
      PurchaseResult.badRequest invalidPriceMsg
    else if env.pubkeyValid req.buyerPubkey = false ∨
        env.pubkeyValid req.serviceFeeAddress = false then
      PurchaseResult.internalError
    else
      let buyerPublicKey := PubKey.parsed req.buyerPubkey
      let serviceFeePublicKey := PubKey.parsed req.serviceFeeAddress
      let buyerUsdcAccount := getAssociatedTokenAddress PubKey.usdcMint buyerPublicKey
      let serviceFeeUsdcAccount :=
        getAssociatedTokenAddress PubKey.usdcMint serviceFeePublicKey
      let domainPriceLamports : ℤ := Int.floor (req.domainPriceUSDC * 1000000)
      let serviceFeeLamports : ℤ := Int.floor (req.serviceFeeUSDC * 1000000)
      let domainKey := getDomainKeySync domainName
      let tx : Transaction :=
        { instructions :=
            [ Instruction.transferTokens buyerUsdcAccount PubKey.snsPayment
                buyerPublicKey domainPriceLamports
            , Instruction.transferTokens buyerUsdcAccount serviceFeeUsdcAccount
                buyerPublicKey serviceFeeLamports
            , Instruction.createNameRegistry PubKey.nameProgram PubKey.systemProgram
                domainKey.pubkey buyerPublicKey PubKey.systemWallet domainKey.hashed
                domainPriceLamports 2000 none none none ]
        , feePayer := some PubKey.systemWallet
        , recentBlockhash := some env.blockhash
        , signatures := [PubKey.systemWallet] }
      PurchaseResult.ok tx
        { success := true
        , transaction := Encoded.b58 ⟨tx, permissiveOpts⟩
        , transactionBase64 := Encoded.b64 ⟨tx, permissiveOpts⟩
        , message := purchaseOkMsg }

/-- HTTP status of a purchase-domain outcome. -/
def statusOfPurchase : PurchaseResult → ℕ
  | PurchaseResult.badRequest _ => 400
  | PurchaseResult.internalError => 500
  | PurchaseResult.ok _ _ => 200

/-! ### POST /sns/update-domain (index.ts lines 245-303) -/

/-- Decrypted response body of a successful update-domain request: note the
single `transaction` field, base64-encoded. -/
structure UpdateResponse : Type where
  success : Bool
  transaction : Encoded
  message : String
deriving DecidableEq, Repr

/-- Outcome of the update-domain handler body. -/
inductive UpdateResult : Type
  | badRequest (error : String) : UpdateResult
  | notFound : UpdateResult
  | internalError : UpdateResult
  | ok (resp : UpdateResponse) : UpdateResult
deriving DecidableEq, Repr

/-- Embedding of the update-domain handler body after decryption: requires
`domain` and `newOwner` truthy, lowercases the domain (no suffix check),
parses the new owner (`new PublicKey` throws on invalid input, caught by the
catch-all as a 500), then checks registry existence before assembling and
signing the ownership-transfer transaction. -/
def updateDomain (env : Env) (domain newOwner : List Char) : UpdateResult :=
  if domain = [] ∨ newOwner = [] then
    UpdateResult.badRequest domainOwnerRequiredMsg
  else
    let domainName := toLowerList domain
    if env.pubkeyValid newOwner = false then UpdateResult.internalError
    else
      let newOwnerPublicKey := PubKey.parsed newOwner
      let domainKey := getDomainKeySync domainName
      match env.rpc domainKey.pubkey with
      | Except.error _ => UpdateResult.internalError
      | Except.ok none => UpdateResult.notFound
      | Except.ok (some _) =>
        let tx : Transaction :=
          { instructions :=
              [ Instruction.transferName PubKey.nameProgram domainKey.pubkey
                  newOwnerPublicKey PubKey.systemWallet ]
          , feePayer := some PubKey.systemWallet
          , recentBlockhash := some env.blockhash
          , signatures := [PubKey.systemWallet] }
        UpdateResult.ok
          { success := true
          , transaction := Encoded.b64 ⟨tx, permissiveOpts⟩
          , message := updateOkMsg }

/-- HTTP status of an update-domain outcome. -/
def statusOfUpdate : UpdateResult → ℕ
  | UpdateResult.badRequest _ => 400
  | UpdateResult.notFound => 404
  | UpdateResult.internalError => 500
  | UpdateResult.ok _ => 200

/-! ### GET /sns/lookup (index.ts lines 307-381) -/

/-- Decrypted response body of a successful lookup request. -/
structure LookupResponse : Type where
  success : Bool
  pubkey : List Char
  domains : List (List Char)
  totalDomains : ℕ
  message : String
deriving DecidableEq, Repr

/-- Outcome of the lookup handler body.  `upstreamError s` is the branch that
relays the Bonfida status code; `fetchFailed` is the rejected-fetch 500. -/
inductive LookupResult : Type
  | badRequest (error : String) : LookupResult
  | upstreamError (status : ℕ) : LookupResult
  | fetchFailed : LookupResult
  | internalError : LookupResult
  | ok (resp : LookupResponse) : LookupResult
deriving DecidableEq, Repr

/-- Embedding of the lookup handler body after decryption: validate the
pubkey, query the Bonfida user-domains API, relay a non-ok upstream status,
report a rejected fetch as 500, and otherwise append the `.sol` suffix to
each returned domain.  (The count interpolated into the found-domains message
is elided.) -/
def lookupDomains (env : Env) (pubkey : List Char) : LookupResult :=
  if pubkey = [] then LookupResult.badRequest pubkeyRequiredMsg
  else if env.pubkeyValid pubkey = false then
    LookupResult.badRequest invalidPubkeyMsg
  else
    match env.fetchUserDomains pubkey with
    | FetchOutcome.httpError s => LookupResult.upstreamError s
    | FetchOutcome.reject => LookupResult.fetchFailed
    | FetchOutcome.ok userDomains =>
      let formattedDomains := userDomains.map (fun d => d ++ solSuffix)
      LookupResult.ok
        { success := true
        , pubkey := pubkey
        , domains := formattedDomains
        , totalDomains := formattedDomains.length
        , message :=
            if 0 < formattedDomains.length then foundDomainsMsg else noDomainsMsg }

/-- HTTP status of a lookup outcome. -/
def statusOfLookup : LookupResult → ℕ
  | LookupResult.badRequest _ => 400
  | LookupResult.upstreamError s => s
  | LookupResult.fetchFailed => 500
  | LookupResult.internalError => 500
  | LookupResult.ok _ => 200

/-! ### Encryption middleware boundary -/

/-- Modelled from the spec: the encryption middleware file (`./encryption`,
`createEncryptionMiddleware`) is not among the repository sources.  Per spec
section 4.4, `processRequest` on a malformed or non-decryptable payload yields
a dedicated `DecryptionError`; this type records whether decryption of the
inbound body or query succeeded (`ok` with the structured payload) or raised
that error (`failed`). -/
inductive Decrypted (α : Type) : Type
  | ok (payload : α) : Decrypted α
  | failed : Decrypted α

/-- Endpoint wrapper for check-domain: `processRequest` is the first statement
inside the handler's `try`, so a thrown `DecryptionError` lands in the
catch-all, which responds 500 `Internal server error`. -/
def checkDomainEndpoint (env : Env) : Decrypted (List Char) → CheckResult
  | Decrypted.failed => CheckResult.internalError
  | Decrypted.ok name => checkDomain env name

/-- Endpoint wrapper for purchase-domain (same catch-all behaviour). -/
def purchaseDomainEndpoint (env : Env) : Decrypted PurchaseRequest → PurchaseResult
  | Decrypted.failed => PurchaseResult.internalError
  | Decrypted.ok req => purchaseDomain env req

/-- Endpoint wrapper for update-domain (same catch-all behaviour). -/
def updateDomainEndpoint (env : Env) :
    Decrypted (List Char × List Char) → UpdateResult
  | Decrypted.failed => UpdateResult.internalError
  | Decrypted.ok body => updateDomain env body.1 body.2

/-- Endpoint wrapper for lookup (same catch-all behaviour). -/
def lookupEndpoint (env : Env) : Decrypted (List Char) → LookupResult
  | Decrypted.failed => LookupResult.internalError
  | Decrypted.ok pubkey => lookupDomains env pubkey

/-! ### Sample environments for concrete instantiations -/

/-- Environment whose registry has no accounts and whose upstream calls all
succeed trivially. -/
def sampleEnv : Env :=
  { rpc := fun _ => Except.ok none
  , blockhash := []
  , pubkeyValid := fun _ => true
  , fetchUserDomains := fun _ => FetchOutcome.ok [] }

/-- Environment whose registry RPC always rejects (network failure). -/
def failingRpcEnv : Env :=
  { rpc := fun _ => Except.error ()
  , blockhash := []
  , pubkeyValid := fun _ => true
  , fetchUserDomains := fun _ => FetchOutcome.ok [] }

/-- Environment in which every registry account exists. -/
def existingDomainEnv : Env :=
  { rpc := fun _ => Except.ok (some ⟨[]⟩)
  , blockhash := []
  , pubkeyValid := fun _ => true
  , fetchUserDomains := fun _ => FetchOutcome.ok [] }

/-! ### C1: ordering of instructions in a purchase transaction -/

/-- C1. In every purchase transaction assembled by the purchase-domain
handler, the registration instruction sits at a strictly larger index than
every funds-moving transfer instruction. -/
theorem purchase_register_after_transfers (env : Env) (req : PurchaseRequest)
    (tx : Transaction) (resp : PurchaseResponse)
    (h : purchaseDomain env req = PurchaseResult.ok tx resp) :
    ∀ i j, i < tx.instructions.length → j < tx.instructions.length →
      isTransferIx (tx.instructions.getD i (Instruction.transferName
        PubKey.nameProgram PubKey.nameProgram PubKey.nameProgram PubKey.nameProgram)) = true →
      isRegisterIx (tx.instructions.getD j (Instruction.transferName
        PubKey.nameProgram PubKey.nameProgram PubKey.nameProgram PubKey.nameProgram)) = true →
      i < j := by
  simp only [purchaseDomain] at h
  split at h
  · exact absurd h (by simp)
  · split at h
    · exact absurd h (by simp)
    · split at h
      · exact absurd h (by simp)
      · split at h
        · exact absurd h (by simp)
        · split at h
          · exact absurd h (by simp)
          · simp only [PurchaseResult.ok.injEq] at h
            obtain ⟨htx, _⟩ := h
            subst htx
            intro i j hi hj htr hreg
            simp only [List.length_cons, List.length_nil] at hi hj
            interval_cases i <;> interval_cases j <;>
              simp_all [isTransferIx, isRegisterIx, List.getD]

/-- Placeholder instruction used as the `getD` default when indexing. -/
def dummyIx : Instruction :=
  Instruction.transferName PubKey.nameProgram PubKey.nameProgram
    PubKey.nameProgram PubKey.nameProgram

/-- Concrete successful purchase request: buy `abc.sol` at the exact price. -/
def samplePurchaseReq : PurchaseRequest :=
  { name := abcSol
  , buyerPubkey := ['b']
  , domainPriceUSDC := 10
  , serviceFeeUSDC := 2
  , serviceFeeAddress := ['f'] }

/-- The transaction the handler assembles for `samplePurchaseReq`. -/
def samplePurchaseTx : Transaction :=
  { instructions :=
      [ Instruction.transferTokens (PubKey.ata PubKey.usdcMint (PubKey.parsed ['b']))
          PubKey.snsPayment (PubKey.parsed ['b']) 10000000
      , Instruction.transferTokens (PubKey.ata PubKey.usdcMint (PubKey.parsed ['b']))
          (PubKey.ata PubKey.usdcMint (PubKey.parsed ['f'])) (PubKey.parsed ['b']) 2000000
      , Instruction.createNameRegistry PubKey.nameProgram PubKey.systemProgram
          (PubKey.domainKey abcSol) (PubKey.parsed ['b']) PubKey.systemWallet
          ⟨abcSol⟩ 10000000 2000 none none none ]
  , feePayer := some PubKey.systemWallet
  , recentBlockhash := some []
  , signatures := [PubKey.systemWallet] }

/-- The response the handler builds for `samplePurchaseReq`. -/
def samplePurchaseResp : PurchaseResponse :=
  { success := true
  , transaction := Encoded.b58 ⟨samplePurchaseTx, permissiveOpts⟩
  , transactionBase64 := Encoded.b64 ⟨samplePurchaseTx, permissiveOpts⟩
  , message := purchaseOkMsg }

/-- The purchase of `samplePurchaseReq` succeeds and produces exactly
`samplePurchaseTx` and `samplePurchaseResp`. -/
theorem samplePurchase_eq :
    purchaseDomain sampleEnv samplePurchaseReq =
      PurchaseResult.ok samplePurchaseTx samplePurchaseResp := by
  have h1 : toLowerList samplePurchaseReq.name = abcSol := by decide
  have h2 : getDomainPrice abcSol = 10 := by decide
  have h3 : samplePurchaseReq.domainPriceUSDC = 10 := rfl
  have h4 : samplePurchaseReq.serviceFeeUSDC = 2 := rfl
  simp only [purchaseDomain, h1, h2, h3, h4]
  rw [if_neg (by decide), if_neg (by decide), if_neg (by decide),
      if_neg (by norm_num), if_neg (by decide)]
  rw [show Int.floor ((10 : ℚ) * 1000000) = 10000000 from by norm_num,
      show Int.floor ((2 : ℚ) * 1000000) = 2000000 from by norm_num]
  decide

/-- C1 witness: a concrete purchase succeeds, instruction 0 is a transfer,
instruction 2 is the registration, and the theorem places 0 before 2. -/
theorem purchase_register_after_transfers_witness :
    purchaseDomain sampleEnv samplePurchaseReq =
      PurchaseResult.ok samplePurchaseTx samplePurchaseResp ∧ (0 : ℕ) < 2 :=
  ⟨samplePurchase_eq,
   purchase_register_after_transfers sampleEnv samplePurchaseReq samplePurchaseTx
     samplePurchaseResp samplePurchase_eq 0 2 (by decide) (by decide)
     (by decide) (by decide)⟩

/-! ### C4: price validation with 0.01 tolerance -/

/-- C4. For a purchase request that passes the field, suffix, and
availability checks: if `domainPriceUSDC` differs from the expected price by
more than 0.01 the handler answers 400 `Invalid domain price` (and assembles
no transaction, the result being a bare error); if the difference is within
0.01 the price check passes, so no 400 of any kind is produced. -/
theorem purchase_price_validation (env : Env) (req : PurchaseRequest)
    (hfields : ¬(req.name = [] ∨ req.buyerPubkey = [] ∨ req.domainPriceUSDC = 0 ∨
        req.serviceFeeUSDC = 0 ∨ req.serviceFeeAddress = []))
    (hsuffix : listEndsWith solSuffix (toLowerList req.name) = true)
    (havail : isDomainAvailable env (toLowerList req.name) = true) :
    (1 / 100 < |req.domainPriceUSDC - getDomainPrice (toLowerList req.name)| →
        purchaseDomain env req = PurchaseResult.badRequest invalidPriceMsg) ∧
    (|req.domainPriceUSDC - getDomainPrice (toLowerList req.name)| ≤ 1 / 100 →
        ∀ msg, purchaseDomain env req ≠ PurchaseResult.badRequest msg) := by
  constructor
  · intro hgt
    simp only [purchaseDomain]
    rw [if_neg hfields, if_neg (by simp [hsuffix]), if_neg (by simp [havail]),
        if_pos hgt]
  · intro hle msg
    simp only [purchaseDomain]
    rw [if_neg hfields, if_neg (by simp [hsuffix]), if_neg (by simp [havail]),
        if_neg (not_lt.mpr hle)]
    split <;> simp

/-- Purchase request whose price 10.02 is off by 0.02 from the expected 10. -/
def priceMismatchReq : PurchaseRequest :=
  { name := abcSol
  , buyerPubkey := ['b']
  , domainPriceUSDC := mkRat 501 50
  , serviceFeeUSDC := 2
  , serviceFeeAddress := ['f'] }

/-- C4 witness: the 10.02 request is rejected with `Invalid domain price`. -/
theorem purchase_price_validation_witness :
    purchaseDomain sampleEnv priceMismatchReq =
      PurchaseResult.badRequest invalidPriceMsg :=
  (purchase_price_validation sampleEnv priceMismatchReq (by decide) (by decide)
      (by decide)).1 (by
    have hp : getDomainPrice (toLowerList priceMismatchReq.name) = 10 := by decide
    rw [hp]
    show (1 : ℚ) / 100 < |mkRat 501 50 - 10|
    rw [Rat.mkRat_eq_div]
    norm_num [lt_abs])

/-! ### C5: transfer amounts are scaled by 10^6 and floored -/

/-- C5. In every successfully assembled purchase transaction, the two
transfer amounts are exactly `Int.floor (input * 10^6)` of the respective
USDC inputs: scaled by six decimal places and truncated by floor, not
rounded. -/
theorem purchase_amounts_floored (env : Env) (req : PurchaseRequest)
    (tx : Transaction) (resp : PurchaseResponse)
    (h : purchaseDomain env req = PurchaseResult.ok tx resp) :
    tx.instructions.getD 0 dummyIx =
      Instruction.transferTokens
        (getAssociatedTokenAddress PubKey.usdcMint (PubKey.parsed req.buyerPubkey))
        PubKey.snsPayment (PubKey.parsed req.buyerPubkey)
        (Int.floor (req.domainPriceUSDC * 1000000)) ∧
    tx.instructions.getD 1 dummyIx =
      Instruction.transferTokens
        (getAssociatedTokenAddress PubKey.usdcMint (PubKey.parsed req.buyerPubkey))
        (getAssociatedTokenAddress PubKey.usdcMint (PubKey.parsed req.serviceFeeAddress))
        (PubKey.parsed req.buyerPubkey)
        (Int.floor (req.serviceFeeUSDC * 1000000)) := by
  simp only [purchaseDomain] at h
  split at h
  · exact absurd h (by simp)
  · split at h
    · exact absurd h (by simp)
    · split at h
      · exact absurd h (by simp)
      · split at h
        · exact absurd h (by simp)
        · split at h
          · exact absurd h (by simp)
          · simp only [PurchaseResult.ok.injEq] at h
            obtain ⟨htx, _⟩ := h
            subst htx
            exact ⟨rfl, rfl⟩

/-- Purchase request whose service fee 0.0000015 USDC scales to 1.5 micro
units, distinguishing floor (1) from rounding (2). -/
def feeFloorReq : PurchaseRequest :=
  { name := abcSol
  , buyerPubkey := ['b']
  , domainPriceUSDC := 10
  , serviceFeeUSDC := mkRat 3 2000000
  , serviceFeeAddress := ['f'] }

/-- The transaction the handler assembles for `feeFloorReq`. -/
def feeFloorTx : Transaction :=
  { instructions :=
      [ Instruction.transferTokens (PubKey.ata PubKey.usdcMint (PubKey.parsed ['b']))
          PubKey.snsPayment (PubKey.parsed ['b']) 10000000
      , Instruction.transferTokens (PubKey.ata PubKey.usdcMint (PubKey.parsed ['b']))
          (PubKey.ata PubKey.usdcMint (PubKey.parsed ['f'])) (PubKey.parsed ['b']) 1
      , Instruction.createNameRegistry PubKey.nameProgram PubKey.systemProgram
          (PubKey.domainKey abcSol) (PubKey.parsed ['b']) PubKey.systemWallet
          ⟨abcSol⟩ 10000000 2000 none none none ]
  , feePayer := some PubKey.systemWallet
  , recentBlockhash := some []
  , signatures := [PubKey.systemWallet] }

/-- The response the handler builds for `feeFloorReq`. -/
def feeFloorResp : PurchaseResponse :=
  { success := true
  , transaction := Encoded.b58 ⟨feeFloorTx, permissiveOpts⟩
  , transactionBase64 := Encoded.b64 ⟨feeFloorTx, permissiveOpts⟩
  , message := purchaseOkMsg }

/-- The purchase of `feeFloorReq` succeeds with the 1.5-micro-unit fee
floored to 1. -/
theorem feeFloor_eq :
    purchaseDomain sampleEnv feeFloorReq = PurchaseResult.ok feeFloorTx feeFloorResp := by
  have h1 : toLowerList feeFloorReq.name = abcSol := by decide
  have h2 : getDomainPrice abcSol = 10 := by decide
  have h3 : feeFloorReq.domainPriceUSDC = 10 := rfl
  have h4 : feeFloorReq.serviceFeeUSDC = mkRat 3 2000000 := rfl
  simp only [purchaseDomain, h1, h2, h3, h4]
  rw [if_neg (by decide), if_neg (by decide), if_neg (by decide),
      if_neg (by norm_num), if_neg (by decide)]
  rw [show Int.floor ((10 : ℚ) * 1000000) = 10000000 from by norm_num,
      show Int.floor ((mkRat 3 2000000 : ℚ) * 1000000) = 1 from by
        rw [Rat.mkRat_eq_div]; norm_num]
  decide

/-- C5 witness: at the concrete request the fee transfer carries amount
`Int.floor 1.5 = 1` (rounding to nearest would give 2). -/
theorem purchase_amounts_floored_witness :
    feeFloorTx.instructions.getD 1 dummyIx =
      Instruction.transferTokens (PubKey.ata PubKey.usdcMint (PubKey.parsed ['b']))
        (PubKey.ata PubKey.usdcMint (PubKey.parsed ['f'])) (PubKey.parsed ['b'])
        (Int.floor ((mkRat 3 2000000 : ℚ) * 1000000)) ∧
    Int.floor ((mkRat 3 2000000 : ℚ) * 1000000) = 1 :=
  ⟨(purchase_amounts_floored sampleEnv feeFloorReq feeFloorTx feeFloorResp
      feeFloor_eq).2,
   by rw [Rat.mkRat_eq_div]; norm_num⟩

/-! ### C3: decryption failure handling -/

/-- C3 counterexample: a check-domain request whose query fails to decrypt is
answered with HTTP 500 (the catch-all `Internal server error`), not with a
400-class decryption error, refuting the claim at this concrete input. -/
theorem decrypt_failure_counterexample :
    statusOfCheck (checkDomainEndpoint sampleEnv Decrypted.failed) = 500 ∧
    statusOfCheck (checkDomainEndpoint sampleEnv Decrypted.failed) ≠ 400 := by
  exact ⟨rfl, by decide⟩

/-- C3 amended: for every environment, a request whose encrypted body or
query fails to decrypt is answered with HTTP 500 `Internal server error` by
every endpoint (the middleware's `DecryptionError` is swallowed by each
handler's catch-all), never with a 400-class decryption error. -/
theorem decrypt_failure_gives_500 (env : Env) :
    statusOfCheck (checkDomainEndpoint env Decrypted.failed) = 500 ∧
    statusOfPurchase (purchaseDomainEndpoint env Decrypted.failed) = 500 ∧
    statusOfUpdate (updateDomainEndpoint env Decrypted.failed) = 500 ∧
    statusOfLookup (lookupEndpoint env Decrypted.failed) = 500 :=
  ⟨rfl, rfl, rfl, rfl⟩

/-! ### C10: update-domain performs no suffix validation -/

/-- C10. For any update-domain request with non-empty `domain` (whose
lowercase form does not end in `.sol`) and a present, well-formed `newOwner`:
the handler never answers any 400, and after lowercasing and deriving the
registry key it proceeds straight to the existence check, answering 404 when
the account is absent and a signed transaction when present — whereas
check-domain rejects the same name with 400 `Domain must end with .sol`. -/
theorem update_skips_suffix_validation (env : Env) (domain newOwner : List Char)
    (hd : domain ≠ []) (ho : newOwner ≠ [])
    (hvalid : env.pubkeyValid newOwner = true)
    (hsuf : listEndsWith solSuffix (toLowerList domain) = false) :
    (∀ msg, updateDomain env domain newOwner ≠ UpdateResult.badRequest msg) ∧
    (env.rpc (getDomainKeySync (toLowerList domain)).pubkey = Except.ok none →
        updateDomain env domain newOwner = UpdateResult.notFound) ∧
    (∀ account, env.rpc (getDomainKeySync (toLowerList domain)).pubkey =
        Except.ok (some account) →
        ∃ resp, updateDomain env domain newOwner = UpdateResult.ok resp) ∧
    checkDomain env domain = CheckResult.badRequest suffixRequiredMsg := by
  have hfields : ¬(domain = [] ∨ newOwner = []) := by
    intro hor
    rcases hor with h1 | h2
    · exact hd h1
    · exact ho h2
  refine ⟨?_, ?_, ?_, ?_⟩
  · intro msg
    simp only [updateDomain]
    rw [if_neg hfields, if_neg (by simp [hvalid])]
    split <;> simp
  · intro hrpc
    simp only [updateDomain]
    rw [if_neg hfields, if_neg (by simp [hvalid])]
    split
    · simp_all
    · rfl
    · simp_all
  · intro account hrpc
    simp only [updateDomain]
    rw [if_neg hfields, if_neg (by simp [hvalid])]
    split
    · simp_all
    · simp_all
    · exact ⟨_, rfl⟩
  · simp only [checkDomain]
    rw [if_neg hd, if_pos (by simp [hsuf])]

/-- Sample domain name without the `.sol` suffix: the string `abc`. -/
def abcPlain : List Char := ['a', 'b', 'c']

/-- C10 witness: at a concrete suffix-less name, update-domain answers 404
(domain absent in `sampleEnv`) while check-domain answers the suffix 400. -/
theorem update_skips_suffix_validation_witness :
    updateDomain sampleEnv abcPlain ['x'] = UpdateResult.notFound ∧
    checkDomain sampleEnv abcPlain = CheckResult.badRequest suffixRequiredMsg :=
  ⟨(update_skips_suffix_validation sampleEnv abcPlain ['x'] (by decide) (by decide)
      (by decide) (by decide)).2.1 rfl,
   (update_skips_suffix_validation sampleEnv abcPlain ['x'] (by decide) (by decide)
      (by decide) (by decide)).2.2.2⟩

/-! ### C6: response encodings of signed transactions -/

/-- The ownership-transfer transaction assembled for `abc.sol` with new
owner `x` under `existingDomainEnv`. -/
def sampleUpdateTx : Transaction :=
  { instructions :=
      [ Instruction.transferName PubKey.nameProgram (PubKey.domainKey abcSol)
          (PubKey.parsed ['x']) PubKey.systemWallet ]
  , feePayer := some PubKey.systemWallet
  , recentBlockhash := some []
  , signatures := [PubKey.systemWallet] }

/-- The update-domain response built from `sampleUpdateTx`. -/
def sampleUpdateResp : UpdateResponse :=
  { success := true
  , transaction := Encoded.b64 ⟨sampleUpdateTx, permissiveOpts⟩
  , message := updateOkMsg }

/-- C6 counterexample: a successful relayer-signed update-domain response
carries its payload only in base64 — its single `transaction` field is not a
base-58 encoding, so the response does not carry both encodings side by
side. -/
theorem update_single_encoding_counterexample :
    updateDomain existingDomainEnv abcSol ['x'] = UpdateResult.ok sampleUpdateResp ∧
    isB58 sampleUpdateResp.transaction = false :=
  ⟨by decide, by decide⟩

/-- C6 amended: purchase-domain responses carry the serialized payload in
both base-58 (`transaction`) and base64 (`transactionBase64`), while
update-domain responses carry only the base64 encoding; in both endpoints
serialization uses `requireAllSignatures: false, verifySignatures: false`,
so missing/unverified signatures are permitted. -/
theorem tx_encodings_amended (env : Env) (req : PurchaseRequest)
    (domain newOwner : List Char) :
    (∀ tx resp, purchaseDomain env req = PurchaseResult.ok tx resp →
        resp.transaction = Encoded.b58 ⟨tx, permissiveOpts⟩ ∧
        resp.transactionBase64 = Encoded.b64 ⟨tx, permissiveOpts⟩ ∧
        permissiveOpts.requireAllSignatures = false ∧
        permissiveOpts.verifySignatures = false) ∧
    (∀ resp, updateDomain env domain newOwner = UpdateResult.ok resp →
        ∃ tx, resp.transaction = Encoded.b64 ⟨tx, permissiveOpts⟩) := by
  constructor
  · intro tx resp h
    simp only [purchaseDomain] at h
    split at h
    · exact absurd h (by simp)
    · split at h
      · exact absurd h (by simp)
      · split at h
        · exact absurd h (by simp)
        · split at h
          · exact absurd h (by simp)
          · split at h
            · exact absurd h (by simp)
            · simp only [PurchaseResult.ok.injEq] at h
              obtain ⟨htx, hresp⟩ := h
              subst htx
              subst hresp
              exact ⟨rfl, rfl, rfl, rfl⟩
  · intro resp h
    simp only [updateDomain] at h
    split at h
    · exact absurd h (by simp)
    · split at h
      · exact absurd h (by simp)
      · split at h
        · exact absurd h (by simp)
        · exact absurd h (by simp)
        · simp only [UpdateResult.ok.injEq] at h
          subst h
          exact ⟨_, rfl⟩

/-- C6 witness: at the concrete successful purchase, the theorem yields both
encodings side by side with the permissive serialization options. -/
theorem tx_encodings_amended_witness :
    samplePurchaseResp.transaction = Encoded.b58 ⟨samplePurchaseTx, permissiveOpts⟩ ∧
    samplePurchaseResp.transactionBase64 = Encoded.b64 ⟨samplePurchaseTx, permissiveOpts⟩ :=
  have h := (tx_encodings_amended sampleEnv samplePurchaseReq abcSol ['x']).1
    samplePurchaseTx samplePurchaseResp samplePurchase_eq
  ⟨h.1, h.2.1⟩

/-! ### C7: upstream failure surfacing -/

/-- C7 counterexample: with a registry RPC that rejects, check-domain on
`abc.sol` converts the upstream failure into a 200 success response claiming
the domain is already taken, instead of surfacing the failure. -/
theorem upstream_failure_masked_counterexample :
    checkDomain failingRpcEnv abcSol =
      CheckResult.ok
        { domain := abcSol
        , available := false
        , priceUSDC := 10
        , message := domainTakenMsg } ∧
    statusOfCheck (checkDomain failingRpcEnv abcSol) = 200 :=
  ⟨by decide, by decide⟩

/-- C7 amended: in /sns/lookup an upstream failure is surfaced — a non-ok
Bonfida response is relayed with its own status code and a rejected fetch
becomes 500 — but a failing registry RPC inside `isDomainAvailable` is
swallowed: the domain is reported unavailable, check-domain answers a normal
200 success saying the domain is already taken, and purchase-domain answers
400 `Domain is not available`. -/
theorem upstream_failure_handling (env : Env) (name pubkey : List Char)
    (req : PurchaseRequest) (s : ℕ)
    (hpk : pubkey ≠ []) (hpkv : env.pubkeyValid pubkey = true)
    (hname : name ≠ []) (hsuf : listEndsWith solSuffix (toLowerList name) = true)
    (hrpc : env.rpc (getDomainKeySync (toLowerList name)).pubkey = Except.error ())
    (hreqname : req.name = name)
    (hreqfields : ¬(req.name = [] ∨ req.buyerPubkey = [] ∨
        req.domainPriceUSDC = 0 ∨ req.serviceFeeUSDC = 0 ∨
        req.serviceFeeAddress = [])) :
    (env.fetchUserDomains pubkey = FetchOutcome.httpError s →
        lookupDomains env pubkey = LookupResult.upstreamError s ∧
        statusOfLookup (lookupDomains env pubkey) = s) ∧
    (env.fetchUserDomains pubkey = FetchOutcome.reject →
        lookupDomains env pubkey = LookupResult.fetchFailed ∧
        statusOfLookup (lookupDomains env pubkey) = 500) ∧
    (isDomainAvailable env (toLowerList name) = false ∧
        checkDomain env name = CheckResult.ok
          { domain := toLowerList name
          , available := false
          , priceUSDC := getDomainPrice (toLowerList name)
          , message := domainTakenMsg } ∧
        statusOfCheck (checkDomain env name) = 200) ∧
    (purchaseDomain env req = PurchaseResult.badRequest notAvailableMsg ∧
        statusOfPurchase (purchaseDomain env req) = 400) := by
  have havail : isDomainAvailable env (toLowerList name) = false := by
    simp only [isDomainAvailable, hrpc]
  have hcheck : checkDomain env name = CheckResult.ok
      { domain := toLowerList name
      , available := false
      , priceUSDC := getDomainPrice (toLowerList name)
      , message := domainTakenMsg } := by
    simp only [checkDomain]
    rw [if_neg hname, if_neg (by simp [hsuf]), havail]
    simp
  have hpurchase : purchaseDomain env req = PurchaseResult.badRequest notAvailableMsg := by
    simp only [purchaseDomain]
    rw [if_neg hreqfields, hreqname, if_neg (by simp [hsuf]), if_pos havail]
  refine ⟨?_, ?_, ⟨havail, hcheck, by rw [hcheck]; rfl⟩,
    hpurchase, by rw [hpurchase]; rfl⟩
  · intro hfetch
    have hl : lookupDomains env pubkey = LookupResult.upstreamError s := by
      simp only [lookupDomains]
      rw [if_neg hpk, if_neg (by simp [hpkv]), hfetch]
    exact ⟨hl, by rw [hl]; rfl⟩
  · intro hfetch
    have hl : lookupDomains env pubkey = LookupResult.fetchFailed := by
      simp only [lookupDomains]
      rw [if_neg hpk, if_neg (by simp [hpkv]), hfetch]
    exact ⟨hl, by rw [hl]; rfl⟩

/-- Environment whose registry RPC rejects and whose Bonfida API answers
HTTP 503. -/
def failingUpstreamEnv : Env :=
  { rpc := fun _ => Except.error ()
  , blockhash := []
  , pubkeyValid := fun _ => true
  , fetchUserDomains := fun _ => FetchOutcome.httpError 503 }

/-- C7 witness: at concrete inputs, the Bonfida 503 is relayed as the lookup
status, while the rejecting registry RPC is reported as unavailability by
check-domain and as the 400 `Domain is not available` by purchase-domain. -/
theorem upstream_failure_handling_witness :
    lookupDomains failingUpstreamEnv ['p'] = LookupResult.upstreamError 503 ∧
    isDomainAvailable failingUpstreamEnv (toLowerList abcSol) = false ∧
    purchaseDomain failingUpstreamEnv samplePurchaseReq =
      PurchaseResult.badRequest notAvailableMsg :=
  ⟨((upstream_failure_handling failingUpstreamEnv abcSol ['p'] samplePurchaseReq
      503 (by decide) (by decide) (by decide) (by decide) rfl rfl (by decide)).1
      rfl).1,
   (upstream_failure_handling failingUpstreamEnv abcSol ['p'] samplePurchaseReq
      503 (by decide) (by decide) (by decide) (by decide) rfl rfl
      (by decide)).2.2.1.1,
   (upstream_failure_handling failingUpstreamEnv abcSol ['p'] samplePurchaseReq
      503 (by decide) (by decide) (by decide) (by decide) rfl rfl
      (by decide)).2.2.2.1⟩

/-! ### C9: domain-records aggregation (index.ts lines 412-451) -/

/-- The fixed list of record types the handler scans on-chain. -/
def recordTypes : List (List Char) :=
  [ ['S', 'O', 'L'], ['E', 'T', 'H'], ['B', 'T', 'C'], ['L', 'T', 'C']
  , ['D', 'O', 'G', 'E'], ['U', 'R', 'L'], ['I', 'P', 'F', 'S']
  , ['A', 'R', 'W', 'V'], ['T', 'X', 'T'], ['C', 'N', 'A', 'M', 'E']
  , ['A'], ['A', 'A', 'A', 'A'] ]

/-- Lookup in the `records` object, modelled as an association list. -/
def lookupRecord : List (List Char × List Char) → List Char → Option (List Char)
  | [], _ => none
  | (k, v) :: rest, key => if k = key then some v else lookupRecord rest key

/-- Assignment `records[key] = v` on the association-list model. -/
def setRecord : List (List Char × List Char) → List Char → List Char →
    List (List Char × List Char)
  | [], key, v => [(key, v)]
  | (k, w) :: rest, key, v =>
    if k = key then (key, v) :: rest else (k, w) :: setRecord rest key v

/-- JS truthiness of `records[key]`: false when the key is absent or its
value is the empty string. -/
def truthyRecord (records : List (List Char × List Char)) (key : List Char) : Bool :=
  match lookupRecord records key with
  | some v => !v.isEmpty
  | none => false

/-- Cleanup applied to an on-chain record value:
`data.toString('utf8').replace(/\0/g, '').trim()`. -/
def stripNullsTrim (v : List Char) : List Char :=
  let noNulls := v.filter (fun c => c != Char.ofNat 0)
  ((noNulls.dropWhile Char.isWhitespace).reverse.dropWhile Char.isWhitespace).reverse

/-- One iteration of the on-chain scan: if the record account exists with
non-empty data (`chain recordType = some raw`), clean the value and assign it
only when it is non-empty and `!records[recordType]` holds. -/
def mergeStep (chain : List Char → Option (List Char))
    (records : List (List Char × List Char)) (recordType : List Char) :
    List (List Char × List Char) :=
  match chain recordType with
  | none => records
  | some raw =>
    let recordValue := stripNullsTrim raw
    if recordValue ≠ [] ∧ truthyRecord records recordType = false then
      setRecord records recordType recordValue
    else records

/-- The aggregation of the domain-records handler: start from the records
returned by the Bonfida API (`Object.assign(records, recordsData.result)`),
then fold the on-chain scan over `recordTypes`. -/
def mergeRecords (apiRecords : List (List Char × List Char))
    (chain : List Char → Option (List Char)) : List (List Char × List Char) :=
  recordTypes.foldl (mergeStep chain) apiRecords

theorem lookupRecord_setRecord_ne (k key v : List Char)
    (records : List (List Char × List Char)) (h : k ≠ key) :
    lookupRecord (setRecord records k v) key = lookupRecord records key := by
  induction records with
  | nil => simp [setRecord, lookupRecord, h]
  | cons head rest ih =>
    obtain ⟨hk, hv⟩ := head
    by_cases hkk : hk = k
    · subst hkk
      simp [setRecord, lookupRecord, h]
    · simp only [setRecord, lookupRecord]
      rw [if_neg hkk]
      by_cases hkey : hk = key
      · simp [lookupRecord, hkey]
      · simp only [lookupRecord]
        rw [if_neg hkey, if_neg hkey]
        exact ih

theorem mergeStep_preserves (chain : List Char → Option (List Char))
    (records : List (List Char × List Char)) (t key v : List Char)
    (h : lookupRecord records key = some v) (hv : v ≠ []) :
    lookupRecord (mergeStep chain records t) key = some v := by
  unfold mergeStep
  cases chain t with
  | none => exact h
  | some raw =>
    simp only
    split
    · by_cases hts : t = key
      · subst hts
        exfalso
        rename_i hcond
        have : truthyRecord records t = true := by
          simp [truthyRecord, h, List.isEmpty_iff, hv]
        simp [this] at hcond
      · rw [lookupRecord_setRecord_ne t key _ records hts]
        exact h
    · exact h

/-- C9 amended: the on-chain scan never overwrites a record type whose
current value is non-empty (truthy): any non-empty API-provided value
survives the merge unchanged, for every API record set and every on-chain
record set.  (An API value that is the empty string is treated as absent by
the `!records[recordType]` truthiness test and may be overwritten.) -/
theorem merge_preserves_nonempty (apiRecords : List (List Char × List Char))
    (chain : List Char → Option (List Char)) (key v : List Char)
    (h : lookupRecord apiRecords key = some v) (hv : v ≠ []) :
    lookupRecord (mergeRecords apiRecords chain) key = some v := by
  unfold mergeRecords
  have main : ∀ (ts : List (List Char)) (records : List (List Char × List Char)),
      lookupRecord records key = some v →
      lookupRecord (ts.foldl (mergeStep chain) records) key = some v := by
    intro ts
    induction ts with
    | nil => intro records hr; exact hr
    | cons t rest ih =>
      intro records hr
      exact ih _ (mergeStep_preserves chain records t key v hr hv)
  exact main recordTypes apiRecords h

/-- The SOL record type. -/
def solType : List Char := ['S', 'O', 'L']

/-- API record set carrying an empty-string SOL value. -/
def emptySolApiRecords : List (List Char × List Char) := [(solType, [])]

/-- On-chain records carrying a SOL value `X`. -/
def xChain : List Char → Option (List Char) :=
  fun t => if t = solType then some ['X'] else none

/-- C9 counterexample: the API delivers SOL with the empty-string value — a
record type already present — yet the on-chain scan overwrites it with `X`,
so a later source does overwrite a value already present. -/
theorem merge_overwrites_present_counterexample :
    lookupRecord emptySolApiRecords solType = some [] ∧
    lookupRecord (mergeRecords emptySolApiRecords xChain) solType = some ['X'] :=
  ⟨by decide, by decide⟩

/-- API record set carrying a non-empty SOL value `a`. -/
def presentSolApiRecords : List (List Char × List Char) := [(solType, ['a'])]

/-- C9 witness: a non-empty API value survives the on-chain scan unchanged. -/
theorem merge_preserves_nonempty_witness :
    lookupRecord (mergeRecords presentSolApiRecords xChain) solType = some ['a'] :=
  merge_preserves_nonempty presentSolApiRecords xChain solType ['a']
    (by decide) (by decide)

/-! ### C8: the encryption gateway round trip

The encryption middleware file is not among the repository sources, so this
section is modelled from the spec (section 4.4): a block cipher in
cipher-block-chaining mode over 16-byte blocks with a fixed 16-byte IV and
PKCS#7-style padding, the ciphertext transported as text.  The keyed block
cipher itself (AES under a SHA-256-derived key) is external primitive code
and enters as a pair of per-block maps `E`/`D` assumed mutually inverse on
16-byte blocks; bytes are naturals. -/

/-- Modelled from the spec: the XOR of two byte blocks used by CBC chaining
(missing `./encryption` middleware). -/
def xorBlock (a b : List ℕ) : List ℕ := List.zipWith Nat.xor a b

/-- Modelled from the spec: split a byte sequence into consecutive 16-byte
blocks (missing `./encryption` middleware). -/
def chunks : List ℕ → List (List ℕ)
  | [] => []
  | a :: rest => ((a :: rest).take 16) :: chunks ((a :: rest).drop 16)
termination_by l => l.length
decreasing_by simp only [List.length_drop, List.length_cons]; omega

/-- Modelled from the spec: CBC encryption of a block sequence — each block
is XORed with the previous ciphertext block (initially the IV) before the
block cipher `E` is applied (missing `./encryption` middleware). -/
def cbcEncryptBlocks (E : List ℕ → List ℕ) : List ℕ → List (List ℕ) → List (List ℕ)
  | _, [] => []
  | iv, b :: bs =>
    let c := E (xorBlock iv b)
    c :: cbcEncryptBlocks E c bs

/-- Modelled from the spec: CBC decryption of a block sequence — each
ciphertext block is deciphered with `D` and XORed with the previous
ciphertext block (initially the IV) (missing `./encryption` middleware). -/
def cbcDecryptBlocks (D : List ℕ → List ℕ) : List ℕ → List (List ℕ) → List (List ℕ)
  | _, [] => []
  | iv, c :: cs => xorBlock iv (D c) :: cbcDecryptBlocks D c cs

/-- Modelled from the spec: the PKCS#7 pad length for a message of length
`n` — always between 1 and 16 (missing `./encryption` middleware). -/
def padLen (n : ℕ) : ℕ := 16 - n % 16

/-- Modelled from the spec: PKCS#7 padding — append `padLen` copies of the
pad length itself (missing `./encryption` middleware). -/
def pkcs7Pad (p : List ℕ) : List ℕ :=
  p ++ List.replicate (padLen p.length) (padLen p.length)

/-- Modelled from the spec: PKCS#7 unpadding with full validation — the last
byte `n` must lie in 1..16 and the last `n` bytes must all equal `n`, else
the input is rejected (missing `./encryption` middleware). -/
def pkcs7Unpad (l : List ℕ) : Option (List ℕ) :=
  match l.getLast? with
  | none => none
  | some n =>
    if 1 ≤ n ∧ n ≤ 16 ∧ n ≤ l.length ∧
        (l.drop (l.length - n)).all (fun x => x == n) then
      some (l.take (l.length - n))
    else none

/-- Modelled from the spec: `encryptResponse` — pad the serialized payload
and CBC-encrypt it under the fixed IV (missing `./encryption` middleware;
the printable-text transport encoding of the ciphertext is a bijection kept
outside the model). -/
def encryptResponse (E : List ℕ → List ℕ) (iv : List ℕ) (payload : List ℕ) :
    List ℕ :=
  (cbcEncryptBlocks E iv (chunks (pkcs7Pad payload))).flatten

/-- Modelled from the spec: `decryptRequest` — a valid envelope must be a
whole number of blocks; CBC-decrypt it and strip the padding, any failure
being the dedicated decryption error (`none`) (missing `./encryption`
middleware). -/
def decryptRequest (D : List ℕ → List ℕ) (iv : List ℕ) (raw : List ℕ) :
    Option (List ℕ) :=
  if raw.length % 16 = 0 then
    pkcs7Unpad (cbcDecryptBlocks D iv (chunks raw)).flatten
  else none

theorem length_xorBlock (a b : List ℕ) :
    (xorBlock a b).length = min a.length b.length := by
  simp [xorBlock]

theorem xorBlock_xorBlock (a : List ℕ) :
    ∀ b : List ℕ, a.length = b.length → xorBlock a (xorBlock a b) = b := by
  induction a with
  | nil =>
    intro b hb
    cases b with
    | nil => rfl
    | cons y ys => simp at hb
  | cons x xs ih =>
    intro b hb
    cases b with
    | nil => simp at hb
    | cons y ys =>
      simp only [xorBlock, List.zipWith_cons_cons] at ih ⊢
      have hx : Nat.xor x (Nat.xor x y) = y := Nat.xor_cancel_left x y
      rw [hx]
      rw [List.length_cons, List.length_cons] at hb
      exact congrArg (y :: ·) (ih ys (by omega))

theorem chunks_flatten : ∀ l : List ℕ, (chunks l).flatten = l := by
  intro l
  induction l using chunks.induct with
  | case1 => simp [chunks]
  | case2 a rest ih =>
    rw [chunks]
    rw [List.flatten_cons, ih, List.take_append_drop]

theorem chunks_append_block (b t : List ℕ) (hb : b.length = 16) :
    chunks (b ++ t) = b :: chunks t := by
  cases hb2 : b with
  | nil => rw [hb2] at hb; simp at hb
  | cons x xs =>
    subst hb2
    have h1 : List.take 16 (x :: (xs ++ t)) = x :: xs := by
      rw [← List.cons_append, List.take_append_eq_append_take, ← hb,
        List.take_length]
      simp
    have h2 : List.drop 16 (x :: (xs ++ t)) = t := by
      rw [← List.cons_append, List.drop_append_eq_append_drop, ← hb,
        List.drop_length]
      simp
    rw [List.cons_append, chunks, h1, h2]

theorem chunks_flatten_blocks :
    ∀ bs : List (List ℕ), (∀ b ∈ bs, b.length = 16) → chunks bs.flatten = bs := by
  intro bs
  induction bs with
  | nil => intro _; simp [chunks]
  | cons b rest ih =>
    intro h
    rw [List.flatten_cons,
      chunks_append_block b rest.flatten (h b (List.mem_cons_self b rest))]
    rw [ih (fun x hx => h x (List.mem_cons_of_mem b hx))]

theorem chunks_blocks_length :
    ∀ l : List ℕ, l.length % 16 = 0 → ∀ b ∈ chunks l, b.length = 16 := by
  intro l
  induction l using chunks.induct with
  | case1 => intro _ b hb; simp [chunks] at hb
  | case2 a rest ih =>
    intro hmod b hb
    rw [chunks] at hb
    rcases List.mem_cons.mp hb with hhead | htail
    · subst hhead
      rw [List.length_take]
      simp only [List.length_cons] at hmod ⊢
      omega
    · apply ih _ b htail
      rw [List.length_drop]
      simp only [List.length_cons] at hmod ⊢
      omega

theorem flatten_length_blocks :
    ∀ bs : List (List ℕ), (∀ b ∈ bs, b.length = 16) →
      bs.flatten.length = 16 * bs.length := by
  intro bs
  induction bs with
  | nil => intro _; rfl
  | cons b rest ih =>
    intro h
    rw [List.flatten_cons, List.length_append, List.length_cons,
      h b (List.mem_cons_self b rest),
      ih (fun x hx => h x (List.mem_cons_of_mem b hx))]
    ring

theorem cbcEncrypt_blocks_length (E : List ℕ → List ℕ)
    (hElen : ∀ b, b.length = 16 → (E b).length = 16) :
    ∀ (bs : List (List ℕ)) (iv : List ℕ), iv.length = 16 →
      (∀ b ∈ bs, b.length = 16) →
      ∀ c ∈ cbcEncryptBlocks E iv bs, c.length = 16 := by
  intro bs
  induction bs with
  | nil => intro iv _ _ c hc; simp [cbcEncryptBlocks] at hc
  | cons b rest ih =>
    intro iv hiv hall c hc
    have hb : b.length = 16 := hall b (List.mem_cons_self b rest)
    have hxb : (xorBlock iv b).length = 16 := by
      rw [length_xorBlock, hiv, hb]; omega
    simp only [cbcEncryptBlocks] at hc
    rcases List.mem_cons.mp hc with hhead | htail
    · subst hhead
      exact hElen _ hxb
    · exact ih (E (xorBlock iv b)) (hElen _ hxb)
        (fun x hx => hall x (List.mem_cons_of_mem b hx)) c htail

theorem cbcDecrypt_blocks_length (D : List ℕ → List ℕ)
    (hDlen : ∀ b, b.length = 16 → (D b).length = 16) :
    ∀ (cs : List (List ℕ)) (iv : List ℕ), iv.length = 16 →
      (∀ c ∈ cs, c.length = 16) →
      ∀ b ∈ cbcDecryptBlocks D iv cs, b.length = 16 := by
  intro cs
  induction cs with
  | nil => intro iv _ _ b hb; simp [cbcDecryptBlocks] at hb
  | cons c rest ih =>
    intro iv hiv hall b hb
    have hc : c.length = 16 := hall c (List.mem_cons_self c rest)
    simp only [cbcDecryptBlocks] at hb
    rcases List.mem_cons.mp hb with hhead | htail
    · subst hhead
      rw [length_xorBlock, hiv, hDlen c hc]; omega
    · exact ih c hc (fun x hx => hall x (List.mem_cons_of_mem c hx)) b htail

theorem cbcDecrypt_cbcEncrypt (E D : List ℕ → List ℕ)
    (hDE : ∀ b, b.length = 16 → D (E b) = b)
    (hElen : ∀ b, b.length = 16 → (E b).length = 16) :
    ∀ (bs : List (List ℕ)) (iv : List ℕ), iv.length = 16 →
      (∀ b ∈ bs, b.length = 16) →
      cbcDecryptBlocks D iv (cbcEncryptBlocks E iv bs) = bs := by
  intro bs
  induction bs with
  | nil => intro iv _ _; rfl
  | cons b rest ih =>
    intro iv hiv hall
    have hb : b.length = 16 := hall b (List.mem_cons_self b rest)
    have hxb : (xorBlock iv b).length = 16 := by
      rw [length_xorBlock, hiv, hb]; omega
    simp only [cbcEncryptBlocks, cbcDecryptBlocks]
    rw [hDE _ hxb, xorBlock_xorBlock iv b (by omega)]
    exact congrArg (b :: ·)
      (ih (E (xorBlock iv b)) (hElen _ hxb)
        (fun x hx => hall x (List.mem_cons_of_mem b hx)))

theorem cbcEncrypt_cbcDecrypt (E D : List ℕ → List ℕ)
    (hED : ∀ b, b.length = 16 → E (D b) = b)
    (hDlen : ∀ b, b.length = 16 → (D b).length = 16) :
    ∀ (cs : List (List ℕ)) (iv : List ℕ), iv.length = 16 →
      (∀ c ∈ cs, c.length = 16) →
      cbcEncryptBlocks E iv (cbcDecryptBlocks D iv cs) = cs := by
  intro cs
  induction cs with
  | nil => intro iv _ _; rfl
  | cons c rest ih =>
    intro iv hiv hall
    have hc : c.length = 16 := hall c (List.mem_cons_self c rest)
    have hdc : (D c).length = 16 := hDlen c hc
    simp only [cbcDecryptBlocks, cbcEncryptBlocks]
    rw [xorBlock_xorBlock iv (D c) (by omega), hED c hc]
    exact congrArg (c :: ·)
      (ih c hc (fun x hx => hall x (List.mem_cons_of_mem c hx)))

theorem padLen_pos (n : ℕ) : 1 ≤ padLen n := by
  unfold padLen
  omega

theorem padLen_le (n : ℕ) : padLen n ≤ 16 := by
  unfold padLen
  omega

theorem pkcs7Pad_length_mod (p : List ℕ) : (pkcs7Pad p).length % 16 = 0 := by
  simp only [pkcs7Pad, List.length_append, List.length_replicate, padLen]
  omega

theorem pkcs7Unpad_pkcs7Pad (p : List ℕ) : pkcs7Unpad (pkcs7Pad p) = some p := by
  have hk1 : 1 ≤ padLen p.length := padLen_pos _
  have hk16 : padLen p.length ≤ 16 := padLen_le _
  have hlen : (pkcs7Pad p).length = p.length + padLen p.length := by
    simp [pkcs7Pad]
  have hlast : (pkcs7Pad p).getLast? = some (padLen p.length) := by
    rw [pkcs7Pad, List.getLast?_append, List.getLast?_replicate]
    rw [if_neg (by omega)]
    rfl
  have hdrop : (pkcs7Pad p).drop ((pkcs7Pad p).length - padLen p.length) =
      List.replicate (padLen p.length) (padLen p.length) := by
    rw [hlen, pkcs7Pad, Nat.add_sub_cancel, List.drop_left]
  have htake : (pkcs7Pad p).take ((pkcs7Pad p).length - padLen p.length) = p := by
    rw [hlen, pkcs7Pad, Nat.add_sub_cancel, List.take_left]
  rw [pkcs7Unpad, hlast]
  simp only
  rw [if_pos ?_]
  · rw [htake]
  · refine ⟨hk1, hk16, by omega, ?_⟩
    rw [hdrop]
    simp [List.all_eq_true, List.mem_replicate]

theorem pkcs7Pad_pkcs7Unpad (l p : List ℕ) (hmod : l.length % 16 = 0)
    (h : pkcs7Unpad l = some p) : pkcs7Pad p = l := by
  rw [pkcs7Unpad] at h
  cases hl : l.getLast? with
  | none => rw [hl] at h; exact absurd h (by simp)
  | some n =>
    rw [hl] at h
    simp only at h
    split at h
    · rename_i hcond
      obtain ⟨h1, h16, hle, hall⟩ := hcond
      simp only [Option.some.injEq] at h
      subst h
      have hplen : (l.take (l.length - n)).length = l.length - n := by
        rw [List.length_take]
        omega
      have hpad : padLen (l.length - n) = n := by
        unfold padLen
        omega
      have hdlen : (l.drop (l.length - n)).length = n := by
        rw [List.length_drop]
        omega
      have hdrop : l.drop (l.length - n) = List.replicate n n := by
        have hmem : ∀ x ∈ l.drop (l.length - n), x = n := by
          intro x hx
          have := List.all_eq_true.mp hall x hx
          simpa using this
        have hrep := List.eq_replicate_of_mem hmem
        rw [hdlen] at hrep
        exact hrep
      rw [pkcs7Pad, hplen, hpad, ← hdrop, List.take_append_drop]
    · exact absurd h (by simp)

/-- C8. Round trip of the encryption gateway, for any block cipher pair
`E`/`D` mutually inverse and length-preserving on 16-byte blocks (as AES-256
under the fixed derived key is) and any 16-byte IV: decrypting an encrypted
payload returns the payload, and re-encrypting the decryption of any valid
envelope (one that decrypts successfully) returns the envelope itself. -/
theorem encryption_roundtrip (E D : List ℕ → List ℕ) (iv : List ℕ)
    (hiv : iv.length = 16)
    (hElen : ∀ b, b.length = 16 → (E b).length = 16)
    (hDlen : ∀ b, b.length = 16 → (D b).length = 16)
    (hDE : ∀ b, b.length = 16 → D (E b) = b)
    (hED : ∀ b, b.length = 16 → E (D b) = b) :
    (∀ payload : List ℕ,
        decryptRequest D iv (encryptResponse E iv payload) = some payload) ∧
    (∀ raw payload : List ℕ, decryptRequest D iv raw = some payload →
        encryptResponse E iv payload = raw) := by
  constructor
  · intro p
    have hblocks : ∀ b ∈ chunks (pkcs7Pad p), b.length = 16 :=
      chunks_blocks_length _ (pkcs7Pad_length_mod p)
    have hencblocks :
        ∀ c ∈ cbcEncryptBlocks E iv (chunks (pkcs7Pad p)), c.length = 16 :=
      cbcEncrypt_blocks_length E hElen _ iv hiv hblocks
    have hflatlen :
        (cbcEncryptBlocks E iv (chunks (pkcs7Pad p))).flatten.length % 16 = 0 := by
      rw [flatten_length_blocks _ hencblocks]
      omega
    rw [encryptResponse, decryptRequest, if_pos hflatlen,
      chunks_flatten_blocks _ hencblocks,
      cbcDecrypt_cbcEncrypt E D hDE hElen _ iv hiv hblocks,
      chunks_flatten]
    exact pkcs7Unpad_pkcs7Pad p
  · intro raw p h
    rw [decryptRequest] at h
    split at h
    · rename_i hmod
      have hcblocks : ∀ b ∈ chunks raw, b.length = 16 :=
        chunks_blocks_length raw hmod
      have hdecblocks :
          ∀ b ∈ cbcDecryptBlocks D iv (chunks raw), b.length = 16 :=
        cbcDecrypt_blocks_length D hDlen _ iv hiv hcblocks
      have hxmod :
          (cbcDecryptBlocks D iv (chunks raw)).flatten.length % 16 = 0 := by
        rw [flatten_length_blocks _ hdecblocks]
        omega
      have hpad : pkcs7Pad p = (cbcDecryptBlocks D iv (chunks raw)).flatten :=
        pkcs7Pad_pkcs7Unpad _ p hxmod h
      rw [encryptResponse, hpad, chunks_flatten_blocks _ hdecblocks,
        cbcEncrypt_cbcDecrypt E D hED hDlen _ iv hiv hcblocks]
      exact chunks_flatten raw
    · exact absurd h (by simp)

/-- C8 witness: instantiating the cipher with the identity pair and the zero
IV, a concrete three-byte payload round-trips. -/
theorem encryption_roundtrip_witness :
    decryptRequest id (List.replicate 16 0)
      (encryptResponse id (List.replicate 16 0) [1, 2, 3]) = some [1, 2, 3] :=
  (encryption_roundtrip id id (List.replicate 16 0) (by simp)
    (fun _ hb => hb) (fun _ hb => hb) (fun _ _ => rfl) (fun _ _ => rfl)).1 [1, 2, 3]

/-- C3 witness: the amended 500 behaviour at a concrete environment. -/
theorem decrypt_failure_gives_500_witness :
    statusOfPurchase (purchaseDomainEndpoint failingRpcEnv Decrypted.failed) = 500 ∧
    statusOfUpdate (updateDomainEndpoint failingRpcEnv Decrypted.failed) = 500 :=
  ⟨(decrypt_failure_gives_500 failingRpcEnv).2.1,
   (decrypt_failure_gives_500 failingRpcEnv).2.2.1⟩
